import Mathlib

/-!
Shallow embedding of the event-indexing backend of `my-dapp`
(`src/backend/index.js` plus the SQL schema and the backfill script in
`src/unnamed/`).  Pure data transformations become Lean functions; the
stateful pieces (the subscription registry, the `trades` and `markets`
tables, the provider-retry loop, the reconnection sequence) become explicit
state-passing functions or step traces.  On-chain big integers are `Nat`;
JavaScript `BigInt.toString()` and `ethers.formatEther` are modelled as
executable decimal-string encoders below.
-/

/-! ## Decimal string encoding

`natRepr` models JavaScript `BigInt.prototype.toString()` (base 10).
`formatEther` models `ethers.formatEther`: the integer quotient by `10 ^ 18`,
a dot, and the 18-digit zero-padded remainder with trailing zeros trimmed
(at least one fractional digit is kept, e.g. `"1.0"`). -/

def digitChar (d : Nat) : Char := Char.ofNat (48 + d)

def natDigitsAux : Nat → Nat → List Char
  | 0, _ => []
  | fuel + 1, n =>
      if n < 10 then [digitChar n]
      else natDigitsAux fuel (n / 10) ++ [digitChar (n % 10)]

def natDigits (n : Nat) : List Char := natDigitsAux (n + 1) n

def natRepr (n : Nat) : String := String.mk (natDigits n)

/-- Decimal value of a digit string; left inverse of `natDigits`. -/
def digitsVal (cs : List Char) : Nat :=
  cs.foldl (fun acc c => 10 * acc + (c.toNat - 48)) 0

def padZeros18 (cs : List Char) : List Char :=
  List.replicate (18 - cs.length) '0' ++ cs

def trimTrailingZeros (cs : List Char) : List Char :=
  (cs.reverse.dropWhile (fun c => c == '0')).reverse

def formatEther (v : Nat) : String :=
  let frac := trimTrailingZeros (padZeros18 (natDigits (v % 10 ^ 18)))
  String.mk (natDigits (v / 10 ^ 18) ++ '.' :: (if frac.isEmpty then ['0'] else frac))

/-- Decimal value of the text before the first dot. -/
def intPartVal (s : String) : Nat :=
  digitsVal (s.data.takeWhile (fun c => c != '.'))

lemma digitChar_toNat {d : Nat} (hd : d < 10) : (digitChar d).toNat = 48 + d := by
  interval_cases d <;> decide

lemma digitsVal_append_singleton (cs : List Char) (c : Char) :
    digitsVal (cs ++ [c]) = 10 * digitsVal cs + (c.toNat - 48) := by
  simp [digitsVal, List.foldl_append]

lemma digitsVal_natDigitsAux :
    ∀ fuel n, n < 10 ^ fuel → digitsVal (natDigitsAux fuel n) = n := by
  intro fuel
  induction fuel with
  | zero =>
      intro n hn
      have : n = 0 := Nat.lt_one_iff.mp hn
      subst this
      simp [natDigitsAux, digitsVal]
  | succ f ih =>
      intro n hn
      by_cases h : n < 10
      · simp [natDigitsAux, h, digitsVal, digitChar_toNat h]
      · have hdiv : n / 10 < 10 ^ f := by
          apply (Nat.div_lt_iff_lt_mul (by norm_num : (0:Nat) < 10)).mpr
          calc n < 10 ^ (f + 1) := hn
            _ = 10 ^ f * 10 := by ring
        have hmod : n % 10 < 10 := Nat.mod_lt _ (by norm_num)
        simp only [natDigitsAux, h, if_false]
        rw [digitsVal_append_singleton, ih _ hdiv, digitChar_toNat hmod]
        omega

lemma self_lt_ten_pow (n : Nat) : n < 10 ^ (n + 1) := by
  have h := Nat.lt_two_pow n
  calc n < 2 ^ n := h
    _ ≤ 10 ^ n := Nat.pow_le_pow_left (by norm_num) n
    _ < 10 ^ (n + 1) := Nat.pow_lt_pow_succ (by norm_num)

/-- The encoding `natDigits` really encodes `n` in decimal: decoding gives `n` back, so the
stored string is the exact integer, with no scaling. -/
theorem digitsVal_natDigits (n : Nat) : digitsVal (natDigits n) = n :=
  digitsVal_natDigitsAux (n + 1) n (self_lt_ten_pow n)

lemma natDigitsAux_fuel_eq :
    ∀ f g n, 0 < f → 0 < g → n < 10 ^ f → n < 10 ^ g →
      natDigitsAux f n = natDigitsAux g n := by
  intro f
  induction f with
  | zero => intro g n hf; omega
  | succ f ih =>
      intro g n _ hg hnf hng
      by_cases h : n < 10
      · cases g with
        | zero => omega
        | succ g => simp [natDigitsAux, h]
      · cases g with
        | zero => omega
        | succ g =>
          have hf0 : 0 < f := by
            by_contra hc
            have : f = 0 := by omega
            subst this
            simp at hnf
            omega
          have hg0 : 0 < g := by
            by_contra hc
            have : g = 0 := by omega
            subst this
            simp at hng
            omega
          have hdivf : n / 10 < 10 ^ f := by
            apply (Nat.div_lt_iff_lt_mul (by norm_num : (0:Nat) < 10)).mpr
            calc n < 10 ^ (f + 1) := hnf
              _ = 10 ^ f * 10 := by ring
          have hdivg : n / 10 < 10 ^ g := by
            apply (Nat.div_lt_iff_lt_mul (by norm_num : (0:Nat) < 10)).mpr
            calc n < 10 ^ (g + 1) := hng
              _ = 10 ^ g * 10 := by ring
          simp only [natDigitsAux, h, if_false]
          rw [ih (g) (n / 10) hf0 hg0 hdivf hdivg]

lemma natDigits_eq_aux (f n : Nat) (hf : 0 < f) (hn : n < 10 ^ f) :
    natDigits n = natDigitsAux f n :=
  natDigitsAux_fuel_eq (n + 1) f n (Nat.succ_pos n) hf (self_lt_ten_pow n) hn

lemma mem_natDigitsAux_is_digit :
    ∀ fuel n c, c ∈ natDigitsAux fuel n → ∃ d, d < 10 ∧ c = digitChar d := by
  intro fuel
  induction fuel with
  | zero => intro n c hc; simp [natDigitsAux] at hc
  | succ f ih =>
      intro n c hc
      by_cases h : n < 10
      · simp [natDigitsAux, h] at hc
        exact ⟨n, h, hc⟩
      · simp only [natDigitsAux, h, if_false, List.mem_append, List.mem_singleton] at hc
        rcases hc with hc | hc
        · exact ih _ _ hc
        · exact ⟨n % 10, Nat.mod_lt _ (by norm_num), hc⟩

lemma digitChar_ne_dot {d : Nat} (hd : d < 10) : (digitChar d != '.') = true := by
  interval_cases d <;> decide

lemma takeWhile_append_all {p : Char → Bool} :
    ∀ (xs : List Char) (y : Char) (ys : List Char), (∀ x ∈ xs, p x = true) → p y = false →
      (xs ++ y :: ys).takeWhile p = xs := by
  intro xs
  induction xs with
  | nil => intro y ys _ hy; simp [List.takeWhile, hy]
  | cons a l ih =>
      intro y ys hall hy
      have ha : p a = true := hall a (List.mem_cons_self a l)
      simp only [List.cons_append, List.takeWhile_cons, ha, if_true]
      rw [ih y ys (fun x hx => hall x (List.mem_cons_of_mem a hx)) hy]

/-- The part of `formatEther v` before the decimal point is exactly
`v / 10 ^ 18`: the conversion is a division by `10 ^ 18`. -/
lemma intPartVal_formatEther (v : Nat) : intPartVal (formatEther v) = v / 10 ^ 18 := by
  unfold intPartVal formatEther
  have hdata : (String.mk (natDigits (v / 10 ^ 18) ++ '.' ::
      (if (trimTrailingZeros (padZeros18 (natDigits (v % 10 ^ 18)))).isEmpty then ['0']
       else trimTrailingZeros (padZeros18 (natDigits (v % 10 ^ 18)))))).data
      = natDigits (v / 10 ^ 18) ++ '.' ::
      (if (trimTrailingZeros (padZeros18 (natDigits (v % 10 ^ 18)))).isEmpty then ['0']
       else trimTrailingZeros (padZeros18 (natDigits (v % 10 ^ 18)))) := rfl
  rw [hdata, takeWhile_append_all _ '.' _ ?_ (by decide), digitsVal_natDigits]
  intro x hx
  obtain ⟨d, hd, rfl⟩ := mem_natDigitsAux_is_digit _ _ _ hx
  exact digitChar_ne_dot hd

example : natRepr (10 ^ 18) = "1000000000000000000" := by
  rw [natRepr, natDigits_eq_aux 19 (10 ^ 18) (by norm_num) (by norm_num)]
  decide

example : formatEther (10 ^ 18) = "1.0" := by decide

/-! ## Trade ingestion (`tradeListener` in `src/backend/index.js`)

A `TradeRow` is a row of the `trades` table.  `mkTradeRow` is the parameter
list built by `tradeListener` for the `INSERT INTO trades ... ON CONFLICT
(tx_hash) DO NOTHING` statement; the best-effort reads (`userFid`,
`predictionId`, `winningOutcome`) arrive as `Option` values because each is
wrapped in its own try/catch that turns failure into null.  `insertTrade`
is the insert statement itself against a table with a unique key on
`tx_hash`: if a row with the same hash exists the statement does nothing
(and raises no error); otherwise it appends the row. -/

structure TradeRow where
  tx_hash : String
  block_number : Nat
  user_address : String
  market_address : String
  outcome : Nat
  amount : String
  shares : String
  creator_fee : String
  platform_fee : String
  timestamp : Nat
  user_fid : Option String
  prediction_id : Option String
  resolved_outcome : Option Int
  user_outcome : Nat
  deriving DecidableEq, Repr

structure TradeEvent where
  user : String
  outcome : Nat
  amount : Nat
  shares : Nat
  creatorFee : Nat
  platformFee : Nat
  txHash : String
  blockNumber : Nat
  marketAddress : String
  deriving DecidableEq, Repr

def mkTradeRow (ev : TradeEvent) (blockTimestamp : Nat) (userFid : Option Nat)
    (predictionId : Option String) (winningOutcome : Option Int) : TradeRow :=
  { tx_hash := ev.txHash
    block_number := ev.blockNumber
    user_address := ev.user
    market_address := ev.marketAddress
    outcome := ev.outcome
    amount := natRepr ev.amount
    shares := natRepr ev.shares
    creator_fee := natRepr ev.creatorFee
    platform_fee := natRepr ev.platformFee
    timestamp := blockTimestamp
    user_fid := userFid.map natRepr
    prediction_id := predictionId
    resolved_outcome := winningOutcome
    user_outcome := ev.outcome }

def insertTrade (table : List TradeRow) (row : TradeRow) : List TradeRow :=
  if table.any (fun r => r.tx_hash == row.tx_hash) then table else table ++ [row]

/-- Number of rows in the table carrying a given transaction hash. -/
def countHash (table : List TradeRow) (h : String) : Nat :=
  (table.filter (fun r => r.tx_hash == h)).length

lemma countHash_append (t1 t2 : List TradeRow) (h : String) :
    countHash (t1 ++ t2) h = countHash t1 h + countHash t2 h := by
  simp [countHash, List.filter_append]

lemma insertTrade_of_mem (table : List TradeRow) (row : TradeRow)
    (hmem : 0 < countHash table row.tx_hash) :
    insertTrade table row = table := by
  unfold insertTrade
  have : table.any (fun r => r.tx_hash == row.tx_hash) = true := by
    rw [List.any_eq_true]
    have hne : table.filter (fun r => r.tx_hash == row.tx_hash) ≠ [] := by
      intro hnil
      rw [countHash, hnil] at hmem
      simp at hmem
    obtain ⟨x, hx⟩ := List.exists_mem_of_ne_nil _ hne
    exact ⟨x, (List.mem_filter.mp hx).1, (List.mem_filter.mp hx).2⟩
  rw [this]
  simp

lemma insertTrade_of_fresh (table : List TradeRow) (row : TradeRow)
    (hfresh : countHash table row.tx_hash = 0) :
    insertTrade table row = table ++ [row] := by
  unfold insertTrade
  have : table.any (fun r => r.tx_hash == row.tx_hash) = false := by
    rw [List.any_eq_false]
    intro x hx hbeq
    have : x ∈ table.filter (fun r => r.tx_hash == row.tx_hash) :=
      List.mem_filter.mpr ⟨hx, hbeq⟩
    rw [countHash, List.length_eq_zero] at hfresh
    rw [hfresh] at this
    simp at this
  rw [this]
  simp

lemma countHash_insert_fresh (table : List TradeRow) (row : TradeRow)
    (hfresh : countHash table row.tx_hash = 0) :
    countHash (insertTrade table row) row.tx_hash = 1 := by
  rw [insertTrade_of_fresh table row hfresh, countHash_append, hfresh]
  simp [countHash]

/-- C2 — Trade ingestion is idempotent on transaction hash: delivering the same
trade notification any positive number of times to a table that does not yet
hold its transaction hash leaves exactly one row with that hash, every delivery
after the first returns the table unchanged (the modelled
`ON CONFLICT (tx_hash) DO NOTHING` statement is total, hence error-free), and
the existing row is never modified. -/
theorem trade_ingestion_idempotent (table : List TradeRow) (row : TradeRow) (k : Nat)
    (hfresh : countHash table row.tx_hash = 0) :
    countHash ((fun t => insertTrade t row)^[k + 1] table) row.tx_hash = 1 ∧
      (fun t => insertTrade t row)^[k + 1] table = insertTrade table row := by
  induction k with
  | zero =>
      refine ⟨?_, rfl⟩
      exact countHash_insert_fresh table row hfresh
  | succ k ih =>
      have hstep : (fun t => insertTrade t row)^[k + 1 + 1] table
          = insertTrade ((fun t => insertTrade t row)^[k + 1] table) row :=
        Function.iterate_succ_apply' (fun t => insertTrade t row) (k + 1) table
      rw [hstep, ih.2]
      have hone : countHash (insertTrade table row) row.tx_hash = 1 :=
        countHash_insert_fresh table row hfresh
      rw [insertTrade_of_mem _ _ (by omega)]
      exact ⟨hone, rfl⟩

/-- The concrete trade notification of the spec scenario: outcome 1, amount
`10 ^ 18`, shares `2 * 10 ^ 18`, transaction hash `0xabc`. -/
def exTradeEvent : TradeEvent :=
  { user := "0xuser", outcome := 1, amount := 10 ^ 18, shares := 2 * 10 ^ 18,
    creatorFee := 0, platformFee := 0, txHash := "0xabc", blockNumber := 7,
    marketAddress := "0xmarket" }

def exTradeRow : TradeRow := mkTradeRow exTradeEvent 1700000000 none none none

/-- Witness for C2 at the spec's concrete scenario: delivering the `0xabc`
trade twice to an empty table leaves exactly one row with that hash. -/
theorem trade_ingestion_idempotent_witness :
    countHash [] exTradeRow.tx_hash = 0 ∧
      countHash ((fun t => insertTrade t exTradeRow)^[2] []) exTradeRow.tx_hash = 1 ∧
      (fun t => insertTrade t exTradeRow)^[2] [] = insertTrade [] exTradeRow :=
  ⟨rfl, (trade_ingestion_idempotent [] exTradeRow 1 rfl).1,
    (trade_ingestion_idempotent [] exTradeRow 1 rfl).2⟩

/-- C10 — At insertion time the `user_outcome` parameter and the `outcome`
parameter of the trades insert are the same value: `tradeListener` passes the
event's outcome side for both `$5` and `$14`. -/
theorem inserted_user_outcome_eq_outcome (ev : TradeEvent) (ts : Nat)
    (fid : Option Nat) (pid : Option String) (wo : Option Int) :
    (mkTradeRow ev ts fid pid wo).user_outcome = (mkTradeRow ev ts fid pid wo).outcome ∧
      (mkTradeRow ev ts fid pid wo).outcome = ev.outcome :=
  ⟨rfl, rfl⟩

/-! ## Metadata indexing (`indexMarketMetadata` / `batchIndexMarketMetadata`)

A market's chain-side interface is 15 view functions.  A read of one field
either yields a value or throws; we embed each read as `Except Unit _`.

The single-market path (`indexMarketMetadata`, src/backend/index.js:282-364)
awaits `Promise.all` of the 15 reads, but only `winningOutcome()` and
`sharesOutstanding()` carry `.catch(() => null)`; a failure of any of the
other 13 reads rejects the whole `Promise.all`, lands in the outer catch and
stores nothing.  On success it upserts one `markets` row.

The batch path (`batchIndexMarketMetadata`, src/backend/index.js:166-279)
pushes the 15 calls per address into one Multicall3 `aggregate`, which
reverts when any call reverts, then decodes market `i`'s field `k` at
position `i * 15 + k`; a per-market decode failure is caught inside the
loop and skips only that market's row. -/

inductive FieldId where
  | predictionId | question | description | category | rule | status
  | resolutionDate | resolved | winningOutcome | yesPool | noPool
  | volume | tradesCount | creatorFid | sharesOutstanding
  deriving DecidableEq, Repr

/-- The 15 calls pushed per market, in source order (src/backend/index.js:172-188). -/
def fieldList : List FieldId :=
  [.predictionId, .question, .description, .category, .rule, .status,
   .resolutionDate, .resolved, .winningOutcome, .yesPool, .noPool,
   .volume, .tradesCount, .creatorFid, .sharesOutstanding]

/-- An ABI-encoded return value, tagged with its decoded type. -/
inductive FieldVal where
  | nat (n : Nat)
  | str (s : String)
  | bool (b : Bool)
  | int (i : Int)
  deriving DecidableEq, Repr

/-- One market's 15 field reads; `Except.error ()` is a throwing view call. -/
structure MarketReads where
  predictionId : Except Unit Nat
  question : Except Unit String
  description : Except Unit String
  category : Except Unit String
  rule : Except Unit String
  status : Except Unit String
  resolutionDate : Except Unit Nat
  resolved : Except Unit Bool
  winningOutcome : Except Unit Int
  yesPool : Except Unit Nat
  noPool : Except Unit Nat
  volume : Except Unit Nat
  tradesCount : Except Unit Nat
  creatorFid : Except Unit Nat
  sharesOutstanding : Except Unit Nat

/-- A fully readable on-chain market state (every view call succeeds). -/
structure MarketVals where
  predictionId : Nat
  question : String
  description : String
  category : String
  rule : String
  status : String
  resolutionDate : Nat
  resolved : Bool
  winningOutcome : Int
  yesPool : Nat
  noPool : Nat
  volume : Nat
  tradesCount : Nat
  creatorFid : Nat
  sharesOutstanding : Nat

/-- Reads against a fully readable state: every call returns its value. -/
def readsOf (v : MarketVals) : MarketReads :=
  { predictionId := .ok v.predictionId, question := .ok v.question,
    description := .ok v.description, category := .ok v.category,
    rule := .ok v.rule, status := .ok v.status,
    resolutionDate := .ok v.resolutionDate, resolved := .ok v.resolved,
    winningOutcome := .ok v.winningOutcome, yesPool := .ok v.yesPool,
    noPool := .ok v.noPool, volume := .ok v.volume,
    tradesCount := .ok v.tradesCount, creatorFid := .ok v.creatorFid,
    sharesOutstanding := .ok v.sharesOutstanding }

/-- One `markets` row as upserted by either path. -/
structure MarketRow where
  market_address : String
  prediction_id : Nat
  question : String
  description : String
  category : String
  rule : String
  status : String
  resolution_date : Nat
  resolved : Bool
  outcome : Option Int
  yes_pool : String
  no_pool : String
  volume : String
  trades_count : Nat
  user_fid : Option String
  shares_outstanding : Option String
  deriving DecidableEq, Repr

/-- Model of `sharesOutstanding ? sharesOutstanding.toString() : null`: JavaScript
truthiness sends both null and `0n` to null. -/
def encodeShares : Option Nat → Option String
  | none => none
  | some v => if v = 0 then none else some (natRepr v)

/-- The single-market path.  `none` models "the outer catch fired, nothing
was stored". -/
def indexMarketMetadata (addr : String) (r : MarketReads) : Option MarketRow :=
  match r.predictionId, r.question, r.description, r.category, r.rule, r.status,
      r.resolutionDate, r.resolved, r.yesPool, r.noPool, r.volume, r.tradesCount,
      r.creatorFid with
  | .ok pid, .ok q, .ok d, .ok cat, .ok ru, .ok st, .ok rd, .ok res, .ok yp, .ok np,
    .ok vol, .ok tc, .ok cf =>
      some { market_address := addr, prediction_id := pid, question := q,
             description := d, category := cat, rule := ru, status := st,
             resolution_date := rd, resolved := res,
             outcome := r.winningOutcome.toOption,
             yes_pool := formatEther yp, no_pool := formatEther np,
             volume := formatEther vol, trades_count := tc,
             user_fid := some (natRepr cf),
             shares_outstanding := encodeShares r.sharesOutstanding.toOption }
  | _, _, _, _, _, _, _, _, _, _, _, _, _ => none

/-- Executing one multicall entry `(target, field)` against the chain. -/
def readField (r : MarketReads) : FieldId → Except Unit FieldVal
  | .predictionId => r.predictionId.map .nat
  | .question => r.question.map .str
  | .description => r.description.map .str
  | .category => r.category.map .str
  | .rule => r.rule.map .str
  | .status => r.status.map .str
  | .resolutionDate => r.resolutionDate.map .nat
  | .resolved => r.resolved.map .bool
  | .winningOutcome => r.winningOutcome.map .int
  | .yesPool => r.yesPool.map .nat
  | .noPool => r.noPool.map .nat
  | .volume => r.volume.map .nat
  | .tradesCount => r.tradesCount.map .nat
  | .creatorFid => r.creatorFid.map .nat
  | .sharesOutstanding => r.sharesOutstanding.map .nat

/-- The `calls` array: 15 entries per market, markets in order. -/
def buildCalls : List String → List (String × FieldId)
  | [] => []
  | a :: rest => fieldList.map (fun f => (a, f)) ++ buildCalls rest

/-- Multicall3 `aggregate`: returns all results, or reverts as a whole if any
single call reverts. -/
def mapExcept (f : α → Except Unit β) : List α → Except Unit (List β)
  | [] => .ok []
  | a :: as => match f a, mapExcept f as with
    | .ok b, .ok bs => .ok (b :: bs)
    | .ok _, .error e => .error e
    | .error e, _ => .error e

/-- Decoding market `i` from the aggregate return data: field `k` is read at
position `i * 15 + k`; any shape mismatch throws and is caught per-market. -/
def decodeMarket (addr : String) (ret : List FieldVal) (i : Nat) : Option MarketRow :=
  match ret.get? (i * 15), ret.get? (i * 15 + 1), ret.get? (i * 15 + 2),
      ret.get? (i * 15 + 3), ret.get? (i * 15 + 4), ret.get? (i * 15 + 5),
      ret.get? (i * 15 + 6), ret.get? (i * 15 + 7), ret.get? (i * 15 + 8),
      ret.get? (i * 15 + 9), ret.get? (i * 15 + 10), ret.get? (i * 15 + 11),
      ret.get? (i * 15 + 12), ret.get? (i * 15 + 13), ret.get? (i * 15 + 14) with
  | some (.nat pid), some (.str q), some (.str d), some (.str cat), some (.str ru),
    some (.str st), some (.nat rd), some (.bool res), some (.int w), some (.nat yp),
    some (.nat np), some (.nat vol), some (.nat tc), some (.nat cf), some (.nat sh) =>
      some { market_address := addr, prediction_id := pid, question := q,
             description := d, category := cat, rule := ru, status := st,
             resolution_date := rd, resolved := res, outcome := some w,
             yes_pool := formatEther yp, no_pool := formatEther np,
             volume := formatEther vol, trades_count := tc,
             user_fid := some (natRepr cf),
             shares_outstanding := encodeShares (some sh) }
  | _, _, _, _, _, _, _, _, _, _, _, _, _, _, _ => none

/-- The indexed `for` loop over `marketAddresses`: a decode failure logs and
skips that market only. -/
def batchRows (ret : List FieldVal) : Nat → List String → List MarketRow
  | _, [] => []
  | i, a :: rest =>
      match decodeMarket a ret i with
      | some row => row :: batchRows ret (i + 1) rest
      | none => batchRows ret (i + 1) rest

/-- The batch path: early return on an empty list, one aggregate call, then
the decode loop; an aggregate revert is caught and stores nothing. -/
def batchIndexMarketMetadata (chain : String → MarketReads) (addrs : List String) :
    List MarketRow :=
  if addrs.isEmpty then []
  else
    match mapExcept (fun c => readField (chain c.1) c.2) (buildCalls addrs) with
    | .error _ => []
    | .ok ret => batchRows ret 0 addrs

/-- Decoded value of one field of a fully readable state. -/
def fieldValOf (v : MarketVals) : FieldId → FieldVal
  | .predictionId => .nat v.predictionId
  | .question => .str v.question
  | .description => .str v.description
  | .category => .str v.category
  | .rule => .str v.rule
  | .status => .str v.status
  | .resolutionDate => .nat v.resolutionDate
  | .resolved => .bool v.resolved
  | .winningOutcome => .int v.winningOutcome
  | .yesPool => .nat v.yesPool
  | .noPool => .nat v.noPool
  | .volume => .nat v.volume
  | .tradesCount => .nat v.tradesCount
  | .creatorFid => .nat v.creatorFid
  | .sharesOutstanding => .nat v.sharesOutstanding

/-- The row the single-market path stores for a fully readable state. -/
def mkMarketRowVals (addr : String) (v : MarketVals) : MarketRow :=
  { market_address := addr, prediction_id := v.predictionId, question := v.question,
    description := v.description, category := v.category, rule := v.rule,
    status := v.status, resolution_date := v.resolutionDate, resolved := v.resolved,
    outcome := some v.winningOutcome, yes_pool := formatEther v.yesPool,
    no_pool := formatEther v.noPool, volume := formatEther v.volume,
    trades_count := v.tradesCount, user_fid := some (natRepr v.creatorFid),
    shares_outstanding := encodeShares (some v.sharesOutstanding) }

lemma indexMarketMetadata_readsOf (addr : String) (v : MarketVals) :
    indexMarketMetadata addr (readsOf v) = some (mkMarketRowVals addr v) := rfl

lemma readField_readsOf (v : MarketVals) (f : FieldId) :
    readField (readsOf v) f = .ok (fieldValOf v f) := by
  cases f <;> rfl

lemma mapExcept_ok {f : α → Except Unit β} {g : α → β} :
    ∀ l : List α, (∀ x ∈ l, f x = .ok (g x)) → mapExcept f l = .ok (l.map g) := by
  intro l
  induction l with
  | nil => intro _; rfl
  | cons a as ih =>
      intro hall
      have ha := hall a (List.mem_cons_self a as)
      have has := ih (fun x hx => hall x (List.mem_cons_of_mem a hx))
      simp [mapExcept, ha, has]

lemma buildCalls_get? :
    ∀ (addrs : List String) (j : Nat) (a : String) (k : Nat),
      addrs.get? j = some a → k < 15 →
      (buildCalls addrs).get? (j * 15 + k) = (fieldList.get? k).map (fun f => (a, f)) := by
  intro addrs
  induction addrs with
  | nil => intro j a k hj; simp at hj
  | cons b rest ih =>
      intro j a k hj hk
      cases j with
      | zero =>
          have hab : a = b := by simpa using hj.symm
          subst hab
          have hlen : k < (fieldList.map (fun f => (a, f))).length := by
            simpa [fieldList] using hk
          rw [show (0 * 15 + k) = k by omega, buildCalls, List.get?_append hlen,
            List.get?_map]
      | succ j =>
          have hj2 : rest.get? j = some a := by simpa using hj
          have hidx : (j + 1) * 15 + k = (fieldList.map (fun f => (b, f))).length + (j * 15 + k) := by
            simp [fieldList]
            omega
          rw [buildCalls, hidx, List.get?_append_right (by omega),
            show (fieldList.map (fun f => (b, f))).length + (j * 15 + k) -
              (fieldList.map (fun f => (b, f))).length = j * 15 + k by omega]
          exact ih j a k hj2 hk

lemma ret_get (chain : String → MarketVals) (addrs : List String) (j : Nat) (a : String)
    (k : Nat) (hj : addrs.get? j = some a) (hk : k < 15) :
    ((buildCalls addrs).map (fun c => fieldValOf (chain c.1) c.2)).get? (j * 15 + k)
      = (fieldList.get? k).map (fun f => fieldValOf (chain a) f) := by
  rw [List.get?_map, buildCalls_get? addrs j a k hj hk, Option.map_map]
  rfl

lemma decodeMarket_of_vals (chain : String → MarketVals) (addrs : List String)
    (j : Nat) (a : String) (hj : addrs.get? j = some a) :
    decodeMarket a ((buildCalls addrs).map (fun c => fieldValOf (chain c.1) c.2)) j
      = some (mkMarketRowVals a (chain a)) := by
  have h0 := ret_get chain addrs j a 0 hj (by omega)
  have h1 := ret_get chain addrs j a 1 hj (by omega)
  have h2 := ret_get chain addrs j a 2 hj (by omega)
  have h3 := ret_get chain addrs j a 3 hj (by omega)
  have h4 := ret_get chain addrs j a 4 hj (by omega)
  have h5 := ret_get chain addrs j a 5 hj (by omega)
  have h6 := ret_get chain addrs j a 6 hj (by omega)
  have h7 := ret_get chain addrs j a 7 hj (by omega)
  have h8 := ret_get chain addrs j a 8 hj (by omega)
  have h9 := ret_get chain addrs j a 9 hj (by omega)
  have h10 := ret_get chain addrs j a 10 hj (by omega)
  have h11 := ret_get chain addrs j a 11 hj (by omega)
  have h12 := ret_get chain addrs j a 12 hj (by omega)
  have h13 := ret_get chain addrs j a 13 hj (by omega)
  have h14 := ret_get chain addrs j a 14 hj (by omega)
  rw [show j * 15 + 0 = j * 15 by omega] at h0
  unfold decodeMarket
  rw [h0, h1, h2, h3, h4, h5, h6, h7, h8, h9, h10, h11, h12, h13, h14]
  rfl

lemma batchRows_eq_map (ret : List FieldVal) (F : String → MarketRow) :
    ∀ (rest : List String) (i : Nat),
      (∀ k a, rest.get? k = some a → decodeMarket a ret (i + k) = some (F a)) →
      batchRows ret i rest = rest.map F := by
  intro rest
  induction rest with
  | nil => intro i _; rfl
  | cons a as ih =>
      intro i hall
      have ha : decodeMarket a ret i = some (F a) := by
        have := hall 0 a (by rfl)
        simpa using this
      have has := ih (i + 1) (fun k x hx => by
        have := hall (k + 1) x (by simpa using hx)
        rw [show i + (k + 1) = i + 1 + k by omega] at this
        exact this)
      simp [batchRows, ha, has]

lemma filterMap_all_some {f : α → Option β} {g : α → β} :
    ∀ l : List α, (∀ x, f x = some (g x)) → l.filterMap f = l.map g := by
  intro l hall
  induction l with
  | nil => rfl
  | cons a as ih => simp [List.filterMap_cons, hall a, ih]

/-- C3 — Batch/single path equivalence: against any fixed, fully readable
on-chain state, the batch (multicall) metadata path stores exactly the rows
the single-market path stores, market by market; and in the batch call list
the field `k` of market `i` sits at the fixed positional offset
`i * 15 + k` (15 = field count). -/
theorem metadata_batch_single_equivalent (chain : String → MarketVals)
    (addrs : List String) :
    batchIndexMarketMetadata (fun a => readsOf (chain a)) addrs
        = addrs.filterMap (fun a => indexMarketMetadata a (readsOf (chain a)))
      ∧ ∀ i k (hi : i < addrs.length) (hk : k < 15),
          (buildCalls addrs).get? (i * 15 + k)
            = some (addrs.get ⟨i, hi⟩, fieldList.get ⟨k, hk⟩) := by
  constructor
  · rw [filterMap_all_some addrs
      (fun a => indexMarketMetadata_readsOf a (chain a))]
    by_cases hne : addrs.isEmpty
    · have : addrs = [] := List.isEmpty_iff.mp hne
      subst this
      rfl
    · have hagg : mapExcept (fun c => readField (readsOf (chain c.1)) c.2) (buildCalls addrs)
          = .ok ((buildCalls addrs).map (fun c => fieldValOf (chain c.1) c.2)) :=
        mapExcept_ok _ (fun c _ => readField_readsOf (chain c.1) c.2)
      unfold batchIndexMarketMetadata
      rw [if_neg hne, hagg]
      exact batchRows_eq_map _ _ addrs 0 (fun k a hk => by
        rw [show 0 + k = k by omega]
        exact decodeMarket_of_vals chain addrs k a hk)
  · intro i k hi hk
    have hk2 : k < fieldList.length := by simpa [fieldList] using hk
    rw [buildCalls_get? addrs i (addrs.get ⟨i, hi⟩) k (List.get?_eq_get hi) hk,
      List.get?_eq_get hk2]
    rfl

/-- Witness for C3: a one-market chain state, evaluated concretely. -/
def exVals : MarketVals :=
  { predictionId := 42, question := "Will it rain", description := "desc",
    category := "weather", rule := "rule", status := "live",
    resolutionDate := 1700000000, resolved := false, winningOutcome := 1,
    yesPool := 10 ^ 18, noPool := 2 * 10 ^ 18, volume := 3 * 10 ^ 18,
    tradesCount := 3, creatorFid := 99, sharesOutstanding := 5 }

theorem metadata_batch_single_equivalent_witness :
    batchIndexMarketMetadata (fun _ => readsOf exVals) ["0xmarket"]
        = List.filterMap (fun a => indexMarketMetadata a (readsOf exVals)) ["0xmarket"]
      ∧ (buildCalls ["0xmarket"]).get? (0 * 15 + 9)
          = some ("0xmarket", FieldId.yesPool) :=
  ⟨(metadata_batch_single_equivalent (fun _ => exVals) ["0xmarket"]).1,
    (metadata_batch_single_equivalent (fun _ => exVals) ["0xmarket"]).2 0 9
      (by decide) (by decide)⟩

lemma mapExcept_error {f : α → Except Unit β} :
    ∀ l : List α, (∃ x ∈ l, f x = .error ()) → mapExcept f l = .error () := by
  intro l
  induction l with
  | nil => rintro ⟨x, hx, _⟩; simp at hx
  | cons b bs ih =>
      rintro ⟨x, hx, hfx⟩
      rcases List.mem_cons.mp hx with rfl | hmem
      · simp [mapExcept, hfx]
      · have hbs := ih ⟨x, hmem, hfx⟩
        cases hfb : f b <;> simp [mapExcept, hfb, hbs]

lemma mem_buildCalls {a : String} {f : FieldId} :
    ∀ addrs : List String, a ∈ addrs → f ∈ fieldList → (a, f) ∈ buildCalls addrs := by
  intro addrs
  induction addrs with
  | nil => intro h; simp at h
  | cons b rest ih =>
      intro ha hf
      rcases List.mem_cons.mp ha with rfl | hmem
      · exact List.mem_append_left _ (List.mem_map.mpr ⟨f, hf, rfl⟩)
      · exact List.mem_append_right _ (ih hmem hf)

/-- C4 counterexample — the claim fails at a concrete input: with the
`question()` read failing (and every other field readable), the single-market
path stores no row at all (the rejected `Promise.all` lands in the outer
catch), and the batch path stores no row either (the failed call reverts the
whole `aggregate`) — rather than storing the other 14 fields with the failed
one as null. -/
theorem metadata_field_intolerance_counterexample :
    indexMarketMetadata "0xmarket" { readsOf exVals with question := Except.error () } = none
      ∧ batchIndexMarketMetadata
          (fun _ => { readsOf exVals with question := Except.error () }) ["0xmarket"] = [] :=
  ⟨rfl, rfl⟩

lemma fieldId_mem_fieldList : ∀ f : FieldId, f ∈ fieldList := by
  intro f
  cases f <;> simp [fieldList]

/-- C4 amended — Partial-field tolerance holds only for the two reads wrapped
in `.catch(() => null)`: in the single-market path a failed `winningOutcome`
(resp. `sharesOutstanding`) read stores the row with just that field null and
every other field unchanged, but a failure of any one of the other 13 fields
aborts the whole row upsert (nothing is stored), and in the batch path any
single failed call aborts the entire multicall, storing no row for any
market. -/
theorem metadata_field_tolerance_amended (addr : String) (r : MarketReads) :
    indexMarketMetadata addr { r with winningOutcome := Except.error () }
        = (indexMarketMetadata addr r).map (fun row => { row with outcome := none })
      ∧ indexMarketMetadata addr { r with sharesOutstanding := Except.error () }
        = (indexMarketMetadata addr r).map (fun row => { row with shares_outstanding := none })
      ∧ ((r.predictionId = Except.error () ∨ r.question = Except.error ()
            ∨ r.description = Except.error () ∨ r.category = Except.error ()
            ∨ r.rule = Except.error () ∨ r.status = Except.error ()
            ∨ r.resolutionDate = Except.error () ∨ r.resolved = Except.error ()
            ∨ r.yesPool = Except.error () ∨ r.noPool = Except.error ()
            ∨ r.volume = Except.error () ∨ r.tradesCount = Except.error ()
            ∨ r.creatorFid = Except.error ()) →
          indexMarketMetadata addr r = none)
      ∧ ∀ (chain : String → MarketReads) (addrs : List String) (a : String) (f : FieldId),
          a ∈ addrs → readField (chain a) f = Except.error () →
          batchIndexMarketMetadata chain addrs = [] := by
  cases r with
  | mk x1 x2 x3 x4 x5 x6 x7 x8 x9 x10 x11 x12 x13 x14 x15 =>
    refine ⟨?_, ?_, ?_, ?_⟩
    · cases x1 <;> try rfl
      all_goals cases x2 <;> try rfl
      all_goals cases x3 <;> try rfl
      all_goals cases x4 <;> try rfl
      all_goals cases x5 <;> try rfl
      all_goals cases x6 <;> try rfl
      all_goals cases x7 <;> try rfl
      all_goals cases x8 <;> try rfl
      all_goals cases x10 <;> try rfl
      all_goals cases x11 <;> try rfl
      all_goals cases x12 <;> try rfl
      all_goals cases x13 <;> try rfl
      all_goals cases x14 <;> rfl
    · cases x1 <;> try rfl
      all_goals cases x2 <;> try rfl
      all_goals cases x3 <;> try rfl
      all_goals cases x4 <;> try rfl
      all_goals cases x5 <;> try rfl
      all_goals cases x6 <;> try rfl
      all_goals cases x7 <;> try rfl
      all_goals cases x8 <;> try rfl
      all_goals cases x10 <;> try rfl
      all_goals cases x11 <;> try rfl
      all_goals cases x12 <;> try rfl
      all_goals cases x13 <;> try rfl
      all_goals cases x14 <;> rfl
    · intro hbad
      cases x1 <;> try rfl
      all_goals cases x2 <;> try rfl
      all_goals cases x3 <;> try rfl
      all_goals cases x4 <;> try rfl
      all_goals cases x5 <;> try rfl
      all_goals cases x6 <;> try rfl
      all_goals cases x7 <;> try rfl
      all_goals cases x8 <;> try rfl
      all_goals cases x10 <;> try rfl
      all_goals cases x11 <;> try rfl
      all_goals cases x12 <;> try rfl
      all_goals cases x13 <;> try rfl
      all_goals cases x14 <;> try rfl
      all_goals
        rcases hbad with h | h | h | h | h | h | h | h | h | h | h | h | h <;>
          exact Except.noConfusion h
    · intro chain addrs a f ha hf
      have hne : addrs.isEmpty = false := by
        cases addrs with
        | nil => simp at ha
        | cons b rest => rfl
      have hagg : mapExcept (fun c => readField (chain c.1) c.2) (buildCalls addrs)
          = .error () :=
        mapExcept_error _ ⟨(a, f), mem_buildCalls addrs ha (fieldId_mem_fieldList f), hf⟩
      unfold batchIndexMarketMetadata
      rw [hne, hagg]
      rfl

/-- Witness for C4's amended theorem at concrete inputs: with `winningOutcome`
failing, the row is stored with a null outcome and intact pools; with
`category` failing the single path stores nothing; and a failed `yesPool`
call makes the batch path store nothing for anyone. -/
theorem metadata_field_tolerance_amended_witness :
    indexMarketMetadata "0xmarket" { readsOf exVals with winningOutcome := Except.error () }
        = (indexMarketMetadata "0xmarket" (readsOf exVals)).map
            (fun row => { row with outcome := none })
      ∧ indexMarketMetadata "0xmarket" { readsOf exVals with category := Except.error () } = none
      ∧ batchIndexMarketMetadata
          (fun _ => { readsOf exVals with yesPool := Except.error () }) ["0xmkt"] = [] :=
  ⟨(metadata_field_tolerance_amended "0xmarket" (readsOf exVals)).1,
    (metadata_field_tolerance_amended "0xmarket"
        { readsOf exVals with category := Except.error () }).2.2.1
      (Or.inr (Or.inr (Or.inr (Or.inl rfl)))),
    (metadata_field_tolerance_amended "0xmarket" (readsOf exVals)).2.2.2
      (fun _ => { readsOf exVals with yesPool := Except.error () }) ["0xmkt"] "0xmkt"
      FieldId.yesPool (by simp) rfl⟩

/-- C9 — Storage of monetary quantities: a trade's amount, shares, creator fee
and platform fee are stored as the exact smallest-unit decimal integer string
(`BigInt.toString`, no scaling — decoding the stored string gives back the
event value), whereas the market row's pool and volume fields are stored via
`ethers.formatEther`, i.e. scaled by division by `10 ^ 18` (their stored
integer part is the wei value divided by `10 ^ 18`). -/
theorem monetary_quantities_storage (ev : TradeEvent) (ts : Nat) (fid : Option Nat)
    (pid : Option String) (wo : Option Int) (addr : String) (r : MarketReads)
    (row : MarketRow) (hrow : indexMarketMetadata addr r = some row) :
    (mkTradeRow ev ts fid pid wo).amount = natRepr ev.amount
      ∧ digitsVal ((mkTradeRow ev ts fid pid wo).amount.data) = ev.amount
      ∧ (mkTradeRow ev ts fid pid wo).shares = natRepr ev.shares
      ∧ digitsVal ((mkTradeRow ev ts fid pid wo).shares.data) = ev.shares
      ∧ (mkTradeRow ev ts fid pid wo).creator_fee = natRepr ev.creatorFee
      ∧ digitsVal ((mkTradeRow ev ts fid pid wo).creator_fee.data) = ev.creatorFee
      ∧ (mkTradeRow ev ts fid pid wo).platform_fee = natRepr ev.platformFee
      ∧ digitsVal ((mkTradeRow ev ts fid pid wo).platform_fee.data) = ev.platformFee
      ∧ (∃ yp, r.yesPool = .ok yp ∧ row.yes_pool = formatEther yp
          ∧ intPartVal row.yes_pool = yp / 10 ^ 18)
      ∧ (∃ np, r.noPool = .ok np ∧ row.no_pool = formatEther np
          ∧ intPartVal row.no_pool = np / 10 ^ 18)
      ∧ (∃ vol, r.volume = .ok vol ∧ row.volume = formatEther vol
          ∧ intPartVal row.volume = vol / 10 ^ 18) := by
  cases r with
  | mk x1 x2 x3 x4 x5 x6 x7 x8 x9 x10 x11 x12 x13 x14 x15 =>
    cases x1 <;> try exact Option.noConfusion hrow
    all_goals cases x2 <;> try exact Option.noConfusion hrow
    all_goals cases x3 <;> try exact Option.noConfusion hrow
    all_goals cases x4 <;> try exact Option.noConfusion hrow
    all_goals cases x5 <;> try exact Option.noConfusion hrow
    all_goals cases x6 <;> try exact Option.noConfusion hrow
    all_goals cases x7 <;> try exact Option.noConfusion hrow
    all_goals cases x8 <;> try exact Option.noConfusion hrow
    all_goals cases x10 <;> try exact Option.noConfusion hrow
    all_goals cases x11 <;> try exact Option.noConfusion hrow
    all_goals cases x12 <;> try exact Option.noConfusion hrow
    all_goals cases x13 <;> try exact Option.noConfusion hrow
    all_goals cases x14 <;> try exact Option.noConfusion hrow
    next v1 v2 v3 v4 v5 v6 v7 v8 v10 v11 v12 v13 v14 =>
      have hR := Option.some.inj hrow
      refine ⟨rfl, digitsVal_natDigits ev.amount, rfl, digitsVal_natDigits ev.shares,
        rfl, digitsVal_natDigits ev.creatorFee, rfl, digitsVal_natDigits ev.platformFee,
        ⟨v10, rfl, ?_, ?_⟩, ⟨v11, rfl, ?_, ?_⟩, ⟨v12, rfl, ?_, ?_⟩⟩
      · rw [← hR]
      · rw [← hR]; exact intPartVal_formatEther v10
      · rw [← hR]
      · rw [← hR]; exact intPartVal_formatEther v11
      · rw [← hR]
      · rw [← hR]; exact intPartVal_formatEther v12

/-- Witness for C9 at the spec's concrete numbers: an event amount of
`10 ^ 18` is stored as the string `1000000000000000000`, while a yes-pool of
`10 ^ 18` wei is stored scaled, with integer part `1`. -/
theorem monetary_quantities_storage_witness :
    (mkTradeRow exTradeEvent 1700000000 none none none).amount = "1000000000000000000"
      ∧ (mkMarketRowVals "0xmarket" exVals).yes_pool = formatEther (10 ^ 18)
      ∧ intPartVal (mkMarketRowVals "0xmarket" exVals).yes_pool = 1 := by
  have thm := monetary_quantities_storage exTradeEvent 1700000000 none none none
    "0xmarket" (readsOf exVals) (mkMarketRowVals "0xmarket" exVals)
    (indexMarketMetadata_readsOf "0xmarket" exVals)
  obtain ⟨ham, -, -, -, -, -, -, -, ⟨yp, hok, hyp, hint⟩, -, -⟩ := thm
  have hypval : yp = 10 ^ 18 := (Except.ok.inj hok).symm
  subst hypval
  have hbig : natRepr (10 ^ 18) = "1000000000000000000" := by
    rw [natRepr, natDigits_eq_aux 19 (10 ^ 18) (by norm_num) (by norm_num)]
    decide
  refine ⟨ham.trans hbig, hyp, ?_⟩
  rw [hint]
  norm_num

/-! ## Resolution processing and the subscription registry

`marketListeners` is a `Map` from market address to its pair of live
listeners (trade, resolution).  We model one attached trade+resolution
listener pair as a single numeric pair id: `listenToMarket` creates a fresh
pair, attaches it to the feed (`attached`), and `marketListeners.set`
overwrites the registry entry (`registry`).  Note the source `listenToMarket`
(src/backend/index.js:400-487) has no early-exit when the market is already
subscribed.

`resolvedListener` (src/backend/index.js:461-480) refreshes metadata, reads
back the `markets` row, and only if it shows `resolved = true`: normalizes
the outcome to an integer, bulk-updates the `trades` rows of the market
(src/backend/index.js:469 — `UPDATE trades SET resolved_outcome = $1 WHERE
market_address = $2`, with no `resolved_outcome IS NULL` condition), removes
its own two listeners, and deletes the registry entry. -/

inductive DbOutcome where
  | bool (b : Bool)
  | int (n : Int)
  deriving DecidableEq, Repr

/-- Model of `typeof outcome === 'boolean' ? (outcome ? 1 : 0) : outcome`. -/
def normalizeOutcome : DbOutcome → Int
  | .bool b => if b then 1 else 0
  | .int n => n

/-- The unconditional bulk update of the resolution path
(src/backend/index.js:469). -/
def applyResolvedUpdate (trades : List TradeRow) (addr : String) (v : Int) :
    List TradeRow :=
  trades.map (fun t =>
    if t.market_address == addr then { t with resolved_outcome := some v } else t)

/-- The conditional bulk update of the backfill script
(`backfillResolvedOutcomes`, src/unnamed/part_000): same update but
restricted by `AND resolved_outcome IS NULL`. -/
def backfillUpdate (trades : List TradeRow) (addr : String) (v : Int) :
    List TradeRow :=
  trades.map (fun t =>
    if t.market_address == addr && t.resolved_outcome.isNone
    then { t with resolved_outcome := some v } else t)

structure SubState where
  attached : List (String × Nat)
  registry : List (String × Nat)
  next : Nat
  deriving DecidableEq, Repr

/-- Model of `Map.prototype.set`: overwrite the entry if the key exists, else add it. -/
def registrySet (reg : List (String × Nat)) (a : String) (id : Nat) :
    List (String × Nat) :=
  if reg.any (fun p => p.1 == a) then reg.map (fun p => if p.1 == a then (a, id) else p)
  else reg ++ [(a, id)]

def listenToMarket (s : SubState) (a : String) : SubState :=
  { attached := s.attached ++ [(a, s.next)],
    registry := registrySet s.registry a s.next,
    next := s.next + 1 }

/-- Listener pairs currently attached to the feed for a market. -/
def attachedPairs (s : SubState) (a : String) : Nat :=
  (s.attached.filter (fun p => p.1 == a)).length

/-- Registry entries for a market. -/
def registryEntries (s : SubState) (a : String) : Nat :=
  (s.registry.filter (fun p => p.1 == a)).length

/-- The teardown inside `resolvedListener`: `removeListener` for this
closure's two listeners, then `marketListeners.delete(marketAddress)`. -/
def teardownListeners (s : SubState) (a : String) (id : Nat) : SubState :=
  { s with
    attached := s.attached.filter (fun p => !(p.1 == a && p.2 == id)),
    registry := s.registry.filter (fun p => !(p.1 == a)) }

/-- The listener `resolvedListener` for the pair `id` on market `a`, applied to the
read-back `markets` row (`none` = no row). -/
def resolvedListener (s : SubState) (trades : List TradeRow) (a : String) (id : Nat)
    (marketRow : Option (Bool × DbOutcome)) : SubState × List TradeRow :=
  match marketRow with
  | some (true, o) =>
      (teardownListeners s a id, applyResolvedUpdate trades a (normalizeOutcome o))
  | _ => (s, trades)

/-- A trade row of market `0xmarket` whose `resolved_outcome` is already set
to `0` before resolution processing runs. -/
def exStaleRow : TradeRow :=
  { exTradeRow with resolved_outcome := some 0 }

def exSubState : SubState :=
  { attached := [("0xmarket", 0)], registry := [("0xmarket", 0)], next := 1 }

/-- C1 — evaluation of the code at the failing input: the resolution-path bulk
update is unconditional, so a trade row whose `resolved_outcome` was already
`0` is overwritten to `1` when the market resolves with outcome `1`; the
backfill script's conditional (`IS NULL`) form of the same update — the shape
the claim requires — leaves it at `0`. -/
theorem resolution_update_overwrites_nonnull :
    exStaleRow.resolved_outcome = some 0
      ∧ (resolvedListener exSubState [exStaleRow] "0xmarket" 0
            (some (true, .int 1))).2.map (fun t => t.resolved_outcome) = [some 1]
      ∧ (backfillUpdate [exStaleRow] "0xmarket" 1).map (fun t => t.resolved_outcome)
          = [some 0] := by
  refine ⟨rfl, ?_, ?_⟩ <;> decide

/-- C6 — After resolution processing observes `resolved = true` in the
read-back row, both of the market's listeners are detached and its registry
entry is deleted (so, the market being removed from the feed, no further
event processing occurs for it); when the read-back shows `resolved = false`
or no row, state and trades are left untouched.  The hypothesis says the
pair `id` is the market's (only) attached pair, which is how a single
`listenToMarket` call leaves the state. -/
theorem resolved_market_unsubscribed (s : SubState) (trades : List TradeRow)
    (a : String) (id : Nat) (o : DbOutcome)
    (honly : ∀ p ∈ s.attached, p.1 = a → p.2 = id) :
    attachedPairs (resolvedListener s trades a id (some (true, o))).1 a = 0
      ∧ registryEntries (resolvedListener s trades a id (some (true, o))).1 a = 0
      ∧ ∀ m : Option (Bool × DbOutcome),
          (m = none ∨ ∃ o2, m = some (false, o2)) →
          resolvedListener s trades a id m = (s, trades) := by
  refine ⟨?_, ?_, ?_⟩
  · simp only [resolvedListener, attachedPairs, teardownListeners, List.filter_filter]
    rw [List.length_eq_zero, List.filter_eq_nil]
    intro p hp
    simp only [Bool.and_eq_true, Bool.not_eq_eq_eq_not, Bool.not_true, beq_iff_eq]
    intro hcon
    obtain ⟨h1, h2⟩ := hcon
    have hid : p.2 = id := honly p hp h1
    rw [h1, hid] at h2
    simp at h2
  · simp only [resolvedListener, registryEntries, teardownListeners, List.filter_filter]
    rw [List.length_eq_zero, List.filter_eq_nil]
    intro p _
    simp
  · intro m hm
    rcases hm with rfl | ⟨o2, rfl⟩ <;> rfl

/-- Witness for C6: a concrete resolved read-back detaches the only pair and
empties the registry for the market; an unresolved read-back changes nothing. -/
theorem resolved_market_unsubscribed_witness :
    attachedPairs (resolvedListener exSubState [] "0xmarket" 0
        (some (true, .int 1))).1 "0xmarket" = 0
      ∧ registryEntries (resolvedListener exSubState [] "0xmarket" 0
          (some (true, .int 1))).1 "0xmarket" = 0
      ∧ resolvedListener exSubState [] "0xmarket" 0 (some (false, .int 0))
          = (exSubState, []) :=
  ⟨(resolved_market_unsubscribed exSubState [] "0xmarket" 0 (.int 1)
      (by decide)).1,
    (resolved_market_unsubscribed exSubState [] "0xmarket" 0 (.int 1)
      (by decide)).2.1,
    (resolved_market_unsubscribed exSubState [] "0xmarket" 0 (.int 1)
      (by decide)).2.2 (some (false, .int 0)) (Or.inr ⟨.int 0, rfl⟩)⟩

def exEmptySub : SubState := { attached := [], registry := [], next := 0 }

/-- C7 counterexample — the claim fails at a concrete input: two
`listenToMarket` calls for the same address starting from the empty state
leave two attached trade/resolution listener pairs, not exactly one: the
source `listenToMarket` never checks `marketListeners` before attaching. -/
theorem subscribe_twice_duplicates_counterexample :
    attachedPairs (listenToMarket (listenToMarket exEmptySub "0xmarket") "0xmarket")
        "0xmarket" = 2
      ∧ attachedPairs (listenToMarket (listenToMarket exEmptySub "0xmarket") "0xmarket")
          "0xmarket" ≠ 1 := by
  decide

lemma regCount_set (reg : List (String × Nat)) (a : String) (id : Nat) :
    ((registrySet reg a id).filter (fun p => p.1 == a)).length
      = if (reg.filter (fun p => p.1 == a)).length = 0 then 1
        else (reg.filter (fun p => p.1 == a)).length := by
  unfold registrySet
  by_cases hany : reg.any (fun p => p.1 == a)
  · rw [if_pos hany]
    have hmap : (reg.map (fun p => if p.1 == a then (a, id) else p)).filter
          (fun p => p.1 == a)
        = (reg.filter (fun p => p.1 == a)).map
            (fun p => if p.1 == a then (a, id) else p) := by
      rw [List.filter_map]
      congr 1
      apply List.filter_congr
      intro p _
      by_cases h : (p.1 == a) = true
      · simp [Function.comp, h]
      · simp only [Bool.not_eq_true] at h
        simp [Function.comp, h]
    rw [hmap, List.length_map]
    obtain ⟨x, hx, hpx⟩ := List.any_eq_true.mp hany
    have hxin : x ∈ reg.filter (fun p => p.1 == a) := List.mem_filter.mpr ⟨hx, hpx⟩
    have : (reg.filter (fun p => p.1 == a)).length ≠ 0 := by
      intro hzero
      rw [List.length_eq_zero] at hzero
      rw [hzero] at hxin
      simp at hxin
    rw [if_neg this]
  · rw [if_neg hany]
    rw [List.filter_append]
    have hnil : reg.filter (fun p => p.1 == a) = [] := by
      rw [List.filter_eq_nil_iff]
      intro p hp
      have hfalse : reg.any (fun q => q.1 == a) = false := by
        rw [Bool.eq_false_iff]
        exact hany
      have := List.any_eq_false.mp hfalse p hp
      simpa using this
    rw [hnil]
    simp

/-- C7 amended — subscribing the same market twice is not idempotent on
listener attachment: the second call attaches a second trade/resolution
listener pair (the attached-pair count rises by two over the two calls), and
only the registry stays keyed — it ends with exactly one entry for the
market, holding the most recent pair, so the first pair is orphaned. -/
theorem subscribe_twice_amended (s : SubState) (a : String)
    (hreg : registryEntries s a ≤ 1) :
    attachedPairs (listenToMarket (listenToMarket s a) a) a = attachedPairs s a + 2
      ∧ registryEntries (listenToMarket (listenToMarket s a) a) a = 1 := by
  constructor
  · simp [listenToMarket, attachedPairs, List.filter_append]
  · unfold registryEntries listenToMarket
    simp only
    rw [regCount_set, regCount_set]
    have hc : (s.registry.filter (fun p => p.1 == a)).length ≤ 1 := hreg
    split_ifs <;> omega

/-- Witness for C7's amended theorem, at the empty subscription state. -/
theorem subscribe_twice_amended_witness :
    registryEntries exEmptySub "0xmarket" ≤ 1
      ∧ attachedPairs (listenToMarket (listenToMarket exEmptySub "0xmarket") "0xmarket")
          "0xmarket" = attachedPairs exEmptySub "0xmarket" + 2
      ∧ registryEntries (listenToMarket (listenToMarket exEmptySub "0xmarket") "0xmarket")
          "0xmarket" = 1 :=
  ⟨by decide, (subscribe_twice_amended exEmptySub "0xmarket" (by decide)).1,
    (subscribe_twice_amended exEmptySub "0xmarket" (by decide)).2⟩

/-! ## Reconnection sequence (`monitorWsProvider`, src/backend/index.js:91-103)

On a failed health probe the catch block runs, in source order:
`cleanupMarketListeners()`, `await initializeProviders()`,
`reinitializeContracts()`, `setupFactoryListeners()`,
`await listenToExistingMarkets()`; and `listenToExistingMarkets`
(src/backend/index.js:490-502) first runs the batch backfill over all
factory markets and only then calls `listenToMarket` for each.  We model the
sequence as a step trace. -/

inductive RecoveryStep where
  | teardownAll
  | rebuildConnection
  | rebuildContracts
  | attachFactoryListeners
  | backfill (addrs : List String)
  | subscribe (a : String)
  deriving DecidableEq, Repr

/-- Model of `listenToExistingMarkets`: batch backfill first, then one subscribe per
market, in factory order. -/
def listenToExistingMarketsSteps (ms : List String) : List RecoveryStep :=
  RecoveryStep.backfill ms :: ms.map RecoveryStep.subscribe

/-- The failure branch of the health probe. -/
def monitorWsFailureSteps (ms : List String) : List RecoveryStep :=
  [RecoveryStep.teardownAll, RecoveryStep.rebuildConnection,
   RecoveryStep.rebuildContracts, RecoveryStep.attachFactoryListeners]
    ++ listenToExistingMarketsSteps ms

/-- C5 counterexample — the claim's order fails at a concrete input: with one
known market, the full-backfill step sits at position 4 and the market's
re-subscription at position 5, so re-creating subscriptions (claimed step 4)
does not precede the metadata backfill (claimed step 5); the code runs the
backfill first. -/
theorem recovery_order_counterexample :
    (monitorWsFailureSteps ["0xm1"]).findIdx
        (fun st => st == RecoveryStep.backfill ["0xm1"]) = 4
      ∧ (monitorWsFailureSteps ["0xm1"]).findIdx
          (fun st => st == RecoveryStep.subscribe "0xm1") = 5
      ∧ ¬ ((monitorWsFailureSteps ["0xm1"]).findIdx
            (fun st => st == RecoveryStep.subscribe "0xm1")
          < (monitorWsFailureSteps ["0xm1"]).findIdx
              (fun st => st == RecoveryStep.backfill ["0xm1"])) := by
  refine ⟨?_, ?_, ?_⟩ <;> decide

/-- C5 amended — on a detected feed failure the recovery runs, in strict
order: (1) tear down all subscriptions, (2) rebuild the connection,
(3) rebuild the contract handles, then re-attach the factory listeners,
(4) re-run the full metadata backfill for all factory-known markets, and
(5) re-create every market subscription — i.e. the claim's last two steps
happen in the opposite order (backfill before re-subscription), and no step
is skipped. -/
theorem recovery_sequence_amended (ms : List String) :
    monitorWsFailureSteps ms
        = [RecoveryStep.teardownAll, RecoveryStep.rebuildConnection,
           RecoveryStep.rebuildContracts, RecoveryStep.attachFactoryListeners,
           RecoveryStep.backfill ms] ++ ms.map RecoveryStep.subscribe
      ∧ (monitorWsFailureSteps ms).get? 0 = some RecoveryStep.teardownAll
      ∧ (monitorWsFailureSteps ms).get? 1 = some RecoveryStep.rebuildConnection
      ∧ (monitorWsFailureSteps ms).get? 2 = some RecoveryStep.rebuildContracts
      ∧ (monitorWsFailureSteps ms).get? 3 = some RecoveryStep.attachFactoryListeners
      ∧ (monitorWsFailureSteps ms).get? 4 = some (RecoveryStep.backfill ms)
      ∧ ∀ j a, ms.get? j = some a →
          (monitorWsFailureSteps ms).get? (5 + j) = some (RecoveryStep.subscribe a) := by
  refine ⟨rfl, rfl, rfl, rfl, rfl, rfl, ?_⟩
  intro j a hj
  have hsplit : monitorWsFailureSteps ms
      = [RecoveryStep.teardownAll, RecoveryStep.rebuildConnection,
         RecoveryStep.rebuildContracts, RecoveryStep.attachFactoryListeners,
         RecoveryStep.backfill ms] ++ ms.map RecoveryStep.subscribe := rfl
  rw [hsplit, List.get?_append_right (by simp)]
  simp only [List.length_cons, List.length_nil]
  rw [show 5 + j - (0 + 1 + 1 + 1 + 1 + 1) = j by omega, List.get?_map, hj]
  rfl

/-- Witness for C5's amended theorem at a one-market state. -/
theorem recovery_sequence_amended_witness :
    monitorWsFailureSteps ["0xm1"]
        = [RecoveryStep.teardownAll, RecoveryStep.rebuildConnection,
           RecoveryStep.rebuildContracts, RecoveryStep.attachFactoryListeners,
           RecoveryStep.backfill ["0xm1"]] ++ ["0xm1"].map RecoveryStep.subscribe
      ∧ (monitorWsFailureSteps ["0xm1"]).get? (5 + 0)
          = some (RecoveryStep.subscribe "0xm1") :=
  ⟨(recovery_sequence_amended ["0xm1"]).1,
    (recovery_sequence_amended ["0xm1"]).2.2.2.2.2.2 0 "0xm1" rfl⟩

/-! ## Connection establishment (src/backend/index.js:57-88)

`initializeWsProvider` assigns `wsProvider = new ethers.WebSocketProvider(...)`
and then awaits a `getBlockNumber()` liveness read; on any failure it logs,
calls `wsProvider?.destroy()` — without clearing the variable — and returns
false.  `initializeProviders` retries it in a `while (attempts < maxAttempts)`
loop with `maxAttempts = 5` and a fixed `setTimeout(..., 5000)` sleep after
each failed attempt.  The check afterwards is `if (!wsProvider)`: the HTTP
fallback (with its degradation log) runs only when `wsProvider` is still
unassigned, i.e. when the constructor itself threw on every attempt; an
attempt whose constructor succeeded but whose liveness read failed leaves the
destroyed-but-truthy provider in `wsProvider`, so no fallback occurs and
nothing is logged.  Each attempt therefore has one of three outcomes:
connected, constructor ok but liveness read failed, constructor threw.  The
model is named `initProviders`. -/

inductive AttemptOutcome where
  | connected
  | livenessFailed
  | constructorThrew
  deriving DecidableEq, Repr

/-- The value of the mutable `wsProvider` variable during the retry loop. -/
inductive WsHandle where
  | live (attempt : Nat)
  | destroyed (attempt : Nat)
  deriving DecidableEq, Repr

/-- What `wsProvider` refers to once `initializeProviders` returns. -/
inductive WsProvider where
  | ws (attempt : Nat)
  | wsDestroyed (attempt : Nat)
  | http
  deriving DecidableEq, Repr

structure InitResult where
  provider : WsProvider
  attempts : Nat
  delaysMs : List Nat
  degradedLogged : Bool
  deriving DecidableEq, Repr

def maxAttempts : Nat := 5

/-- The retry loop: returns (the `wsProvider` variable, attempts made, sleeps
performed).  A connected attempt breaks; a liveness failure overwrites the
variable with the new — now destroyed — provider; a constructor throw leaves
the variable as it was.  Failed attempts sleep 5000 ms. -/
def initLoop (outcomes : Nat → AttemptOutcome) :
    Nat → Nat → Option WsHandle → Option WsHandle × Nat × List Nat
  | 0, made, ws => (ws, made, [])
  | remaining + 1, made, ws =>
      match outcomes (made + 1) with
      | .connected => (some (.live (made + 1)), made + 1, [])
      | .livenessFailed =>
          ((initLoop outcomes remaining (made + 1) (some (.destroyed (made + 1)))).1,
           (initLoop outcomes remaining (made + 1) (some (.destroyed (made + 1)))).2.1,
           5000 :: (initLoop outcomes remaining (made + 1) (some (.destroyed (made + 1)))).2.2)
      | .constructorThrew =>
          ((initLoop outcomes remaining (made + 1) ws).1,
           (initLoop outcomes remaining (made + 1) ws).2.1,
           5000 :: (initLoop outcomes remaining (made + 1) ws).2.2)

/-- The loop followed by the `if (!wsProvider)` fallback check: only the
never-assigned variable falls back to the HTTP provider and logs the
degradation; a destroyed provider is kept as is. -/
def initProviders (outcomes : Nat → AttemptOutcome) (ws0 : Option WsHandle) : InitResult :=
  match initLoop outcomes maxAttempts 0 ws0 with
  | (none, tot, ds) =>
      { provider := .http, attempts := tot, delaysMs := ds, degradedLogged := true }
  | (some (.live k), tot, ds) =>
      { provider := .ws k, attempts := tot, delaysMs := ds, degradedLogged := false }
  | (some (.destroyed k), tot, ds) =>
      { provider := .wsDestroyed k, attempts := tot, delaysMs := ds, degradedLogged := false }

lemma initLoop_attempts_le (outcomes : Nat → AttemptOutcome) :
    ∀ remaining made ws, (initLoop outcomes remaining made ws).2.1 ≤ made + remaining := by
  intro remaining
  induction remaining with
  | zero => intro made ws; simp [initLoop]
  | succ r ih =>
      intro made ws
      simp only [initLoop]
      cases houtcome : outcomes (made + 1) with
      | connected =>
          show made + 1 ≤ made + (r + 1)
          omega
      | livenessFailed =>
          have hrec := ih (made + 1) (some (.destroyed (made + 1)))
          show (initLoop outcomes r (made + 1) (some (.destroyed (made + 1)))).2.1
            ≤ made + (r + 1)
          omega
      | constructorThrew =>
          have hrec := ih (made + 1) ws
          show (initLoop outcomes r (made + 1) ws).2.1 ≤ made + (r + 1)
          omega

lemma initLoop_delays (outcomes : Nat → AttemptOutcome) :
    ∀ remaining made ws d, d ∈ (initLoop outcomes remaining made ws).2.2 → d = 5000 := by
  intro remaining
  induction remaining with
  | zero => intro made ws d hd; simp [initLoop] at hd
  | succ r ih =>
      intro made ws d hd
      simp only [initLoop] at hd
      revert hd
      cases houtcome : outcomes (made + 1) with
      | connected =>
          intro hd
          replace hd : d ∈ ([] : List Nat) := hd
          simp at hd
      | livenessFailed =>
          intro hd
          replace hd : d ∈ 5000 ::
            (initLoop outcomes r (made + 1) (some (.destroyed (made + 1)))).2.2 := hd
          rcases List.mem_cons.mp hd with rfl | hd2
          · rfl
          · exact ih (made + 1) (some (.destroyed (made + 1))) d hd2
      | constructorThrew =>
          intro hd
          replace hd : d ∈ 5000 :: (initLoop outcomes r (made + 1) ws).2.2 := hd
          rcases List.mem_cons.mp hd with rfl | hd2
          · rfl
          · exact ih (made + 1) ws d hd2

lemma initLoop_all_threw (outcomes : Nat → AttemptOutcome) :
    ∀ remaining made ws,
      (∀ k, made < k → k ≤ made + remaining → outcomes k = .constructorThrew) →
      (initLoop outcomes remaining made ws).1 = ws
        ∧ (initLoop outcomes remaining made ws).2.1 = made + remaining := by
  intro remaining
  induction remaining with
  | zero => intro made ws _; simp [initLoop]
  | succ r ih =>
      intro made ws hall
      have h1 : outcomes (made + 1) = .constructorThrew :=
        hall (made + 1) (by omega) (by omega)
      have hrec := ih (made + 1) ws (fun k hk1 hk2 => hall k (by omega) (by omega))
      simp only [initLoop, h1]
      refine ⟨?_, ?_⟩
      · show (initLoop outcomes r (made + 1) ws).1 = ws
        exact hrec.1
      · show (initLoop outcomes r (made + 1) ws).2.1 = made + (r + 1)
        rw [hrec.2]
        omega

lemma initLoop_all_livefail (outcomes : Nat → AttemptOutcome) :
    ∀ remaining made ws, 0 < remaining →
      (∀ k, made < k → k ≤ made + remaining → outcomes k = .livenessFailed) →
      (initLoop outcomes remaining made ws).1 = some (.destroyed (made + remaining))
        ∧ (initLoop outcomes remaining made ws).2.1 = made + remaining := by
  intro remaining
  induction remaining with
  | zero => intro made ws hpos; omega
  | succ r ih =>
      intro made ws _ hall
      have h1 : outcomes (made + 1) = .livenessFailed :=
        hall (made + 1) (by omega) (by omega)
      simp only [initLoop, h1]
      rcases Nat.eq_zero_or_pos r with rfl | hr
      · exact ⟨rfl, rfl⟩
      · have hrec := ih (made + 1) (some (.destroyed (made + 1))) hr
          (fun k hk1 hk2 => hall k (by omega) (by omega))
        refine ⟨?_, ?_⟩
        · show (initLoop outcomes r (made + 1) (some (.destroyed (made + 1)))).1
            = some (.destroyed (made + (r + 1)))
          rw [hrec.1, show made + 1 + r = made + (r + 1) from by omega]
        · show (initLoop outcomes r (made + 1) (some (.destroyed (made + 1)))).2.1
            = made + (r + 1)
          rw [hrec.2]
          omega

/-- C8 counterexample — the claim fails at a concrete input: every one of the
five connection attempts fails (the provider constructs but its liveness read
fails — the ordinary way a feed is down), yet no HTTP fallback happens and no
degradation is logged: the `if (!wsProvider)` check sees the
destroyed-but-truthy provider that `initializeWsProvider` left behind, and the
process keeps the dead streaming provider. -/
theorem connection_retry_no_fallback_counterexample :
    (initProviders (fun _ => AttemptOutcome.livenessFailed) none).provider
        = WsProvider.wsDestroyed 5
      ∧ (initProviders (fun _ => AttemptOutcome.livenessFailed) none).degradedLogged = false
      ∧ (initProviders (fun _ => AttemptOutcome.livenessFailed) none).provider
          ≠ WsProvider.http := by
  refine ⟨?_, ?_, ?_⟩ <;> decide

/-- C8 amended — connection establishment makes at most 5 attempts with a
fixed 5000 ms sleep after each failed attempt; when the WebSocket constructor
threw on every attempt (the variable, starting unassigned, was never
assigned), the system falls back to the degraded non-streaming HTTP read-only
connection and logs the degradation, after exactly 5 attempts; but when every
attempt fails at the liveness read instead, the destroyed WebSocket provider
is kept: no fallback and no degradation log. -/
theorem connection_retry_bounded_fallback_amended (outcomes : Nat → AttemptOutcome)
    (ws0 : Option WsHandle) :
    (initProviders outcomes ws0).attempts ≤ 5
      ∧ (∀ d ∈ (initProviders outcomes ws0).delaysMs, d = 5000)
      ∧ ((∀ k, 1 ≤ k → k ≤ 5 → outcomes k = .constructorThrew) → ws0 = none →
          (initProviders outcomes ws0).provider = WsProvider.http
            ∧ (initProviders outcomes ws0).degradedLogged = true
            ∧ (initProviders outcomes ws0).attempts = 5)
      ∧ ((∀ k, 1 ≤ k → k ≤ 5 → outcomes k = .livenessFailed) →
          (initProviders outcomes ws0).provider = WsProvider.wsDestroyed 5
            ∧ (initProviders outcomes ws0).degradedLogged = false) := by
  have hle := initLoop_attempts_le outcomes maxAttempts 0 ws0
  have hds := initLoop_delays outcomes maxAttempts 0 ws0
  set res := initLoop outcomes maxAttempts 0 ws0 with hl
  obtain ⟨o, tot, ds⟩ := res
  refine ⟨?_, ?_, ?_, ?_⟩
  · unfold initProviders
    rw [← hl]
    rcases o with - | h
    · simpa [maxAttempts] using hle
    · rcases h with k | k <;> simpa [maxAttempts] using hle
  · unfold initProviders
    rw [← hl]
    rcases o with - | h
    · simpa using hds
    · rcases h with k | k <;> simpa using hds
  · intro hthrew hws0
    subst hws0
    have hnone := initLoop_all_threw outcomes maxAttempts 0 none
      (fun k hk1 hk2 => hthrew k (by omega) (by simpa [maxAttempts] using hk2))
    rw [← hl] at hnone
    obtain ⟨ho, htot⟩ := hnone
    have ho2 : o = none := ho
    have htot2 : tot = 5 := by simpa [maxAttempts] using htot
    subst ho2
    subst htot2
    unfold initProviders
    rw [← hl]
    exact ⟨rfl, rfl, rfl⟩
  · intro hlf
    have hdead := initLoop_all_livefail outcomes maxAttempts 0 ws0
      (by norm_num [maxAttempts])
      (fun k hk1 hk2 => hlf k (by omega) (by simpa [maxAttempts] using hk2))
    rw [← hl] at hdead
    obtain ⟨ho, htot⟩ := hdead
    have ho2 : o = some (.destroyed 5) := by simpa [maxAttempts] using ho
    subst ho2
    unfold initProviders
    rw [← hl]
    exact ⟨rfl, rfl⟩

/-- Witness for C8's amended theorem: all-constructor-threw attempts produce
the logged HTTP fallback after 5 attempts, while all-liveness-failed attempts
leave the destroyed streaming provider in place. -/
theorem connection_retry_bounded_fallback_amended_witness :
    (initProviders (fun _ => AttemptOutcome.constructorThrew) none).provider = WsProvider.http
      ∧ (initProviders (fun _ => AttemptOutcome.constructorThrew) none).degradedLogged = true
      ∧ (initProviders (fun _ => AttemptOutcome.constructorThrew) none).attempts = 5
      ∧ (initProviders (fun _ => AttemptOutcome.livenessFailed) none).degradedLogged = false :=
  ⟨((connection_retry_bounded_fallback_amended (fun _ => .constructorThrew) none).2.2.1
      (fun _ _ _ => rfl) rfl).1,
    ((connection_retry_bounded_fallback_amended (fun _ => .constructorThrew) none).2.2.1
      (fun _ _ _ => rfl) rfl).2.1,
    ((connection_retry_bounded_fallback_amended (fun _ => .constructorThrew) none).2.2.1
      (fun _ _ _ => rfl) rfl).2.2,
    ((connection_retry_bounded_fallback_amended (fun _ => .livenessFailed) none).2.2.2
      (fun _ _ _ => rfl)).2⟩
